import Mathlib

/-!
Verification development for the tag-driven editor menu of the TSC editor
(`src/tsc/src/core/editor/editor.cpp`): menu-file parsing, tag matching,
menu population, incremental panel layout and the panel visibility state
machine.  C++ floats are modelled as rationals, C++ ints as `Int`,
vectors as lists; pointer identity of the heap-allocated menu entries is
modelled by the position of the entry in `m_menu_entries`.
-/

set_option maxHeartbeats 1000000

/-- A menu entry of the editor menu (`cEditor_Menu_Entry`) as produced by
`cEditor::parse_menu_file`: display name, colour string, the required tags
split from the XML `tags` property, and the header flag. -/
structure MenuEntry where
  m_name : String
  m_color : String
  m_required_tags : List String
  m_is_header : Bool
deriving DecidableEq

/-- The per-image settings relevant to the editor (`cImage_Settings_Data`):
the display name and the raw, semicolon-delimited editor tag string. -/
structure AssetSettings where
  m_name : String
  m_editor_tags : String
deriving DecidableEq

/-- Whether `needle` occurs at the head of `hay`, character by character.
Helper for modelling `std::string::find`. -/
def leadMatch : List Char → List Char → Bool
  | [], _ => true
  | _ :: _, [] => false
  | c :: cs, d :: ds => c = d && leadMatch cs ds

/-- Whether `needle` occurs contiguously anywhere in `hay`.  Models the
success case of `std::string::find` (result different from `npos`). -/
def occursIn (needle : List Char) : List Char → Bool
  | [] => needle.isEmpty
  | c :: cs => leadMatch needle (c :: cs) || occursIn needle cs

/-- The master-tag test of `cEditor::Try_Add_Editor_Item`:
`p_settings->m_editor_tags.find(m_editor_item_tag) != std::string::npos`,
a substring search on the raw tag string. -/
def masterTagCheck (editor_tags editor_item_tag : String) : Bool :=
  occursIn editor_item_tag.data editor_tags.data

/-- Helper for `string_split`: splits a character list at every occurrence of
the delimiter, carrying the reversed current token. -/
def splitChars (delim : Char) : List Char → List Char → List (List Char)
  | [], acc => [acc.reverse]
  | c :: cs, acc =>
    if c = delim then acc.reverse :: splitChars delim cs []
    else splitChars delim cs (c :: acc)

/-- Modelled from the spec: `string_split` is a repository utility whose code
is outside the shown editor sources; the spec describes the tag strings it is
applied to as semicolon-delimited lists, so it is modelled as splitting the
string at each occurrence of the delimiter character. -/
def string_split (s : String) (delim : Char) : List String :=
  (splitChars delim s.data []).map (fun l => ⟨l⟩)

/-- Inner loop of `cEditor::find_target_menu_entries_for`: for each required
tag of one menu entry (sitting at position `i` of the entry list, which stands
for its C++ pointer identity), if the tag is among the requested tags and the
entry has not been collected yet, append the entry to the result list. -/
def tagLoop (requested : List String) (i : Nat) : List String → List Nat → List Nat
  | [], results => results
  | t :: rest, results =>
    if requested.contains t then
      if results.contains i then tagLoop requested i rest results
      else tagLoop requested i rest (results ++ [i])
    else tagLoop requested i rest results

/-- Outer loop of `cEditor::find_target_menu_entries_for` over
`m_menu_entries`, carrying the position of the current entry. -/
def entryLoop (requested : List String) : Nat → List MenuEntry → List Nat → List Nat
  | _, [], results => results
  | i, e :: rest, results =>
      entryLoop requested (i + 1) rest (tagLoop requested i e.m_required_tags results)

/-- `cEditor::find_target_menu_entries_for` with the requested tag list
already split out of the settings record; returns the positions of the
matched menu entries in collection order. -/
def find_target_menu_entries_tags (entries : List MenuEntry) (requested : List String) : List Nat :=
  entryLoop requested 0 entries []

/-- `cEditor::find_target_menu_entries_for`: the graphic's raw tag string is
burst at the semicolons and matched against every menu entry. -/
def find_target_menu_entries_for (entries : List MenuEntry) (settings : AssetSettings) : List Nat :=
  find_target_menu_entries_tags entries (string_split settings.m_editor_tags ';')

/-- Placement core of `cEditor::Try_Add_Editor_Item` for a graphic whose
settings file exists and was parsed: if the raw tag string passes the
master-tag substring test, the graphic is added to every menu entry returned
by `find_target_menu_entries_for`, otherwise to none. -/
def Try_Add_Editor_Item_targets (entries : List MenuEntry) (master : String)
    (settings : AssetSettings) : List Nat :=
  if masterTagCheck settings.m_editor_tags master then
    find_target_menu_entries_for entries settings
  else []

/-- Specification view of the matcher result: the positions, in order, of the
entries whose required tag list intersects the requested tag list. -/
def hitList (requested : List String) : Nat → List MenuEntry → List Nat
  | _, [] => []
  | i, e :: rest =>
    if e.m_required_tags.any (fun t => requested.contains t) then
      i :: hitList requested (i + 1) rest
    else hitList requested (i + 1) rest

/-! ### Category panel layout (`cEditor_Menu_Entry::Add_Image_Item`) -/

/-- The label height constant of `cEditor_Menu_Entry::Add_Image_Item`. -/
def labelheight : Int := 24

/-- The image height (and width, images are square) constant of
`cEditor_Menu_Entry::Add_Image_Item`. -/
def imageheight : Int := 48

/-- The inter-item vertical gap constant of
`cEditor_Menu_Entry::Add_Image_Item`. -/
def yskip : Int := 24

/-- One label/image pair placed into a panel: the label text and absolute
label and image Y offsets, plus the escaped image resource name. -/
structure PlacedImageItem where
  label_text : String
  label_y : Int
  image_y : Int
  image_name : String
deriving DecidableEq

/-- The layout state of one menu entry panel: the running vertical offset
`m_element_y` and the items placed so far. -/
structure MenuEntryPanel where
  m_element_y : Int
  items : List PlacedImageItem
deriving DecidableEq

/-- The panel as set up by the `cEditor_Menu_Entry` constructor:
`m_element_y = 0` and no items placed. -/
def newMenuEntryPanel : MenuEntryPanel :=
  { m_element_y := 0, items := [] }

/-- The path escaping of `cEditor_Menu_Entry::Add_Image_Item`: every `/` in
the pixmap path is replaced by `+`, because CEGUI rejects `/` in image
names. -/
def escape_path (s : String) : String :=
  ⟨s.data.map (fun c => if c = '/' then '+' else c)⟩

/-- `cEditor_Menu_Entry::Add_Image_Item`: place a label at the current
running offset and a square image below it, then advance `m_element_y` by
`labelheight + imageheight + yskip` for the next call. -/
def Add_Image_Item (pixmap_path : String) (settings : AssetSettings)
    (p : MenuEntryPanel) : MenuEntryPanel :=
  { m_element_y := p.m_element_y + labelheight + imageheight + yskip
    items := p.items ++
      [{ label_text := settings.m_name
         label_y := p.m_element_y
         image_y := p.m_element_y + labelheight
         image_name := escape_path pixmap_path }] }

/-! ### Menu definition file parsing (`cEditor::parse_menu_file`) -/

/-- One `<property name="..." value="..."/>` node of an `<item>` of the menu
XML file.  A `none` value models a property node without a `value`
attribute (in which case `get_attribute("value")` yields a null pointer). -/
structure XmlProperty where
  prop_name : String
  value : Option String
deriving DecidableEq

/-- One `<item>` node of the menu XML file, as the black-box XML layer hands
it to `parse_menu_file`. -/
structure XmlItem where
  properties : List XmlProperty
deriving DecidableEq

/-- Outcome of `cEditor::parse_menu_file`.  `loadError` is the exception the
black-box XML layer throws for an absent or not-well-formed file;
`undefinedAccess` marks the out-of-bounds `NodeSet::operator[]` or the null
`get_attribute("value")` dereference the code performs when a required
property is missing — undefined behaviour, not a reported error. -/
inductive MenuParseResult where
  | ok (entries : List MenuEntry)
  | loadError
  | undefinedAccess
deriving DecidableEq

/-- The XPath query `property[@name='key']` on one item node. -/
def lookupProp (item : XmlItem) (key : String) : List XmlProperty :=
  item.properties.filter (fun p => p.prop_name = key)

/-- The expression
`p_node->find("property[@name='name']")[0]->get_attribute("value")->get_value()`
of `cEditor::parse_menu_file`: `none` models the unchecked access it performs
when the query result is empty (`operator[]` out of bounds) or the property
has no `value` attribute (null-pointer dereference). -/
def readName (item : XmlItem) : Option String :=
  match lookupProp item "name" with
  | [] => none
  | p :: _ => p.value

/-- The analogous unchecked read of the required `tags` property value. -/
def readTags (item : XmlItem) : Option String :=
  match lookupProp item "tags" with
  | [] => none
  | p :: _ => p.value

/-- The optional `color` property: an absent property yields the default
colour string, a present property is again dereferenced unchecked. -/
def readColor (item : XmlItem) : Option String :=
  match lookupProp item "color" with
  | [] => some "FFFFFFFF"
  | p :: _ => p.value

/-- Processing of one `<item>` node by `cEditor::parse_menu_file`: read the
required `name` and `tags` property values and the optional colour, burst
the tag list at the semicolons, and mark the entry as header iff the literal
tag `header` is among its tags.  `none` is the undefined access performed as
soon as one of the unchecked reads fails. -/
def parse_one_item (item : XmlItem) : Option MenuEntry :=
  match readName item, readTags item, readColor item with
  | some name, some tagstr, some colorstr =>
    let tags := string_split tagstr ';'
    some { m_name := name, m_color := colorstr, m_required_tags := tags
           m_is_header := tags.contains "header" }
  | _, _, _ => none

/-- The item loop of `cEditor::parse_menu_file`, accumulating
`m_menu_entries` in file order. -/
def parse_items : List XmlItem → List MenuEntry → MenuParseResult
  | [], acc => .ok acc
  | item :: rest, acc =>
    match parse_one_item item with
    | none => .undefinedAccess
    | some e => parse_items rest (acc ++ [e])

/-- `cEditor::parse_menu_file`.  The input is the document produced by the
black-box XML layer; `none` models a file that is absent or not well-formed
XML, for which `xmlpp::DomParser::parse_file` throws (the load error). -/
def parse_menu_file (doc : Option (List XmlItem)) : MenuParseResult :=
  match doc with
  | none => .loadError
  | some items => parse_items items []

/-- An item node on which `parse_menu_file` performs an unchecked access:
the `name` or `tags` property is missing, or present without a `value`
attribute. -/
def badItem (item : XmlItem) : Bool :=
  (readName item).isNone || (readTags item).isNone

/-! ### Category lookup (`cEditor::get_menu_entry`) -/

/-- The error thrown by `cEditor::get_menu_entry` (a `std::runtime_error`
naming the requested category). -/
inductive LookupErr where
  | notFound (name : String)
deriving DecidableEq

/-- `cEditor::get_menu_entry`: linear search of `m_menu_entries` for the
first entry with the given name; throws if no entry matches. -/
def get_menu_entry : List MenuEntry → String → Except LookupErr MenuEntry
  | [], name => .error (.notFound name)
  | e :: rest, name => if e.m_name = name then .ok e else get_menu_entry rest name

/-! ### Panel visibility state machine (`cEditor::Update`,
`cEditor::on_mouse_enter`, `cEditor::on_mouse_leave`) -/

/-- The visibility state of the editor panel: the `cEditor` members
`m_enabled`, `m_mouse_inside`, `m_rested`, `m_visibility_timer`, together
with the tabpane's alpha and X position (scale part of the CEGUI `UDim`) and
the captured home position `m_target_x_position`.  Floats are modelled as
rationals. -/
structure EditorState where
  enabled : Bool
  mouse_inside : Bool
  rested : Bool
  visibility_timer : ℚ
  alpha : ℚ
  x_scale : ℚ
  target_x : ℚ
deriving DecidableEq

/-- `cEditor::Update`, parametrised by the global `speedfactor_fps` and this
frame's `pFramerate->m_speed_factor`.  While the mouse is outside and the
panel is not rested, the timer accumulates and the alpha is interpolated
down; once the timer has reached `speedfactor_fps * 2`, the pane is parked
at X scale `-0.19`, the alpha forced back to `1.0`, `m_rested` set and the
timer cleared. -/
def Update (speedfactor_fps speed_factor : ℚ) (s : EditorState) : EditorState :=
  if s.enabled = false then s
  else if s.mouse_inside then s
  else if s.rested then s
  else
    let timeout : ℚ := speedfactor_fps * 2
    if s.visibility_timer ≥ timeout then
      { s with x_scale := -19/100, alpha := 1, rested := true, visibility_timer := 0 }
    else
      let timer := s.visibility_timer + speed_factor
      let alpha_max : ℚ := 1
      { s with visibility_timer := timer
               alpha := alpha_max - alpha_max * timer / timeout }

/-- `cEditor::on_mouse_enter`: mark the mouse inside, clear the timer and
the rested flag, restore full alpha and the home X position. -/
def on_mouse_enter (s : EditorState) : EditorState :=
  { s with mouse_inside := true, visibility_timer := 0, rested := false
           alpha := 1, x_scale := s.target_x }

/-- `cEditor::on_mouse_leave`: only records that the mouse left. -/
def on_mouse_leave (s : EditorState) : EditorState :=
  { s with mouse_inside := false }

/-- The events that can hit an enabled panel between pointer-enter events:
per-frame update ticks and pointer-leave events. -/
inductive EditorEvent where
  | update (speed_factor : ℚ)
  | mouseLeave
deriving DecidableEq

/-- Apply one non-enter event to the panel state. -/
def applyEvent (speedfactor_fps : ℚ) (s : EditorState) : EditorEvent → EditorState
  | .update sf => Update speedfactor_fps sf s
  | .mouseLeave => on_mouse_leave s

/-! ### Directory scan (`cEditor::load_image_items` /
`cEditor::Try_Add_Editor_Item`) -/

/-- Modelled from the spec: the result of looking up and parsing the sidecar
settings file of one image.  `cImage_Settings_Parser` lives in
`video/img_settings.cpp`, outside the shown sources; per the spec a
malformed settings file is a per-asset error that is recovered locally.  An
environment value of `none` models an image without a settings file. -/
inductive SettingsResult where
  | ok (settings : AssetSettings)
  | parseError
deriving DecidableEq

/-- Outcome of `cEditor::Try_Add_Editor_Item` for one image file. -/
inductive AssetOutcome where
  | noSettingsFile
  | settingsError
  | missingMasterTag
  | placed (targets : List Nat)
deriving DecidableEq

/-- `cEditor::Try_Add_Editor_Item` as outcome classification: skip silently
without settings file, report a malformed settings file, skip when the
master tag is absent from the raw tag string, otherwise place into all
matching menu entries. -/
def processAsset (entries : List MenuEntry) (master : String)
    (env : String → Option SettingsResult) (path : String) : AssetOutcome :=
  match env path with
  | none => .noSettingsFile
  | some .parseError => .settingsError
  | some (.ok settings) =>
    if masterTagCheck settings.m_editor_tags master then
      .placed (find_target_menu_entries_for entries settings)
    else .missingMasterTag

/-- The catalog state built up by the directory scan: for each menu entry
(by position) the pixmap paths placed into it, plus the log of reported
per-asset settings errors. -/
structure ScanState where
  panels : List (List String)
  log : List String
deriving DecidableEq

/-- Processing of one scanned image file: place the path into every target
panel, or append the path to the error log when its settings file is
malformed. -/
def scanStep (entries : List MenuEntry) (master : String)
    (env : String → Option SettingsResult) (st : ScanState) (path : String) : ScanState :=
  match processAsset entries master env path with
  | .noSettingsFile => st
  | .missingMasterTag => st
  | .settingsError => { st with log := st.log ++ [path] }
  | .placed targets =>
    { st with panels :=
        targets.foldl (fun ps i => ps.set i (ps.getD i [] ++ [path])) st.panels }

/-- `cEditor::load_image_items`: process every enumerated image file in
order, independently of the others. -/
def load_image_items (entries : List MenuEntry) (master : String)
    (env : String → Option SettingsResult) (files : List String) (st : ScanState) : ScanState :=
  files.foldl (scanStep entries master env) st

/-! ### Concrete sample data (used as inputs of witness theorems and
counterexamples) -/

/-- A non-header category requiring the tag `enemy`. -/
def enemiesEntry : MenuEntry :=
  { m_name := "Enemies", m_color := "FFFFFFFF", m_required_tags := ["enemy"]
    m_is_header := false }

/-- A non-header category requiring the tags `ground` or `snow`. -/
def groundEntry : MenuEntry :=
  { m_name := "Ground", m_color := "FFFFFFFF", m_required_tags := ["ground", "snow"]
    m_is_header := false }

/-- A header entry that, besides the `header` marker, also carries the
content tag `ground` in its required tag list. -/
def headerEntry : MenuEntry :=
  { m_name := "Backgrounds", m_color := "FFFFFFFF", m_required_tags := ["header", "ground"]
    m_is_header := true }

/-- A level-editor asset tagged `level;ground`. -/
def stoneSettings : AssetSettings :=
  { m_name := "Stone", m_editor_tags := "level;ground" }

/-- A sample settings environment: one well-tagged asset, one asset whose
settings file is malformed, everything else without settings file. -/
def demoEnv : String → Option SettingsResult := fun path =>
  if path = "ground/stone.png" then some (.ok stoneSettings)
  else if path = "ground/bad.png" then some .parseError
  else none

/-- An empty two-panel catalog state. -/
def initScanState : ScanState := { panels := [[], []], log := [] }

/-- An `<item>` node with a `tags` property but no `name` property. -/
def badNameItem : XmlItem :=
  { properties := [{ prop_name := "tags", value := some "ground" }] }

/-- An enabled panel state whose timer sits exactly at the timeout for
`speedfactor_fps = 32`. -/
def restDemoState : EditorState :=
  { enabled := true, mouse_inside := false, rested := false, visibility_timer := 64
    alpha := 1, x_scale := 0, target_x := 0 }

/-- An enabled panel state at the start of a fade-out. -/
def fadeDemoState : EditorState :=
  { enabled := true, mouse_inside := false, rested := false, visibility_timer := 0
    alpha := 1, x_scale := 0, target_x := 0 }

/-- An enabled panel state that has rested at the offscreen position. -/
def restedDemoState : EditorState :=
  { enabled := true, mouse_inside := false, rested := true, visibility_timer := 0
    alpha := 1, x_scale := -19/100, target_x := 0 }

/-! ## Lemmas about the tag matcher -/

/-- Once an entry is in the result list, the inner tag loop never adds it
again. -/
theorem tagLoop_of_mem (req : List String) (i : Nat) (tags : List String)
    (results : List Nat) (h : i ∈ results) : tagLoop req i tags results = results := by
  induction tags with
  | nil => rfl
  | cons t rest ih =>
    rw [tagLoop]
    cases hc : req.contains t with
    | true =>
      rw [if_pos rfl, if_pos (by simpa using h)]
      exact ih
    | false =>
      rw [if_neg Bool.false_ne_true]
      exact ih

/-- For an entry not yet collected, the inner tag loop appends it exactly
when one of its required tags is requested. -/
theorem tagLoop_of_not_mem (req : List String) (i : Nat) (tags : List String)
    (results : List Nat) (h : i ∉ results) :
    tagLoop req i tags results =
      if tags.any (fun t => req.contains t) then results ++ [i] else results := by
  induction tags with
  | nil => rfl
  | cons t rest ih =>
    rw [tagLoop, List.any_cons]
    cases hc : req.contains t with
    | true =>
      rw [if_pos rfl, if_neg (by simpa using h), Bool.true_or, if_pos rfl]
      exact tagLoop_of_mem req i rest (results ++ [i]) (by simp)
    | false =>
      rw [if_neg Bool.false_ne_true, Bool.false_or]
      exact ih

/-- Every position produced by `hitList` is at least the starting index. -/
theorem hitList_le (req : List String) (es : List MenuEntry) (i j : Nat)
    (h : j ∈ hitList req i es) : i ≤ j := by
  induction es generalizing i with
  | nil => simp [hitList] at h
  | cons e rest ih =>
    rw [hitList] at h
    cases hc : e.m_required_tags.any (fun t => req.contains t) with
    | true =>
      rw [hc, if_pos rfl] at h
      rcases List.mem_cons.1 h with rfl | h
      · exact Nat.le_refl j
      · exact Nat.le_of_succ_le (ih (i + 1) h)
    | false =>
      rw [hc, if_neg Bool.false_ne_true] at h
      exact Nat.le_of_succ_le (ih (i + 1) h)

/-- The positions produced by `hitList` are strictly increasing. -/
theorem hitList_pairwise (req : List String) (es : List MenuEntry) (i : Nat) :
    (hitList req i es).Pairwise (fun a b => a < b) := by
  induction es generalizing i with
  | nil => simp [hitList]
  | cons e rest ih =>
    rw [hitList]
    cases hc : e.m_required_tags.any (fun t => req.contains t) with
    | true =>
      rw [if_pos rfl]
      refine List.Pairwise.cons ?_ (ih (i + 1))
      intro j hj
      exact Nat.lt_of_lt_of_le (Nat.lt_succ_self i) (hitList_le req rest (i + 1) j hj)
    | false =>
      rw [if_neg Bool.false_ne_true]
      exact ih (i + 1)

/-- Membership in `hitList`: exactly the positions of the entries whose
required tags intersect the requested tags. -/
theorem hitList_mem (req : List String) (es : List MenuEntry) (i j : Nat) :
    j ∈ hitList req i es ↔
      ∃ k e, es.get? k = some e ∧ j = i + k ∧
        e.m_required_tags.any (fun t => req.contains t) = true := by
  induction es generalizing i with
  | nil => simp [hitList]
  | cons e rest ih =>
    rw [hitList]
    constructor
    · intro h
      cases hc : e.m_required_tags.any (fun t => req.contains t) with
      | true =>
        rw [hc, if_pos rfl] at h
        rcases List.mem_cons.1 h with rfl | h
        · exact ⟨0, e, rfl, by omega, hc⟩
        · rcases (ih (i + 1)).1 h with ⟨k, e', hk, hj, he'⟩
          exact ⟨k + 1, e', by simpa using hk, by omega, he'⟩
      | false =>
        rw [hc, if_neg Bool.false_ne_true] at h
        rcases (ih (i + 1)).1 h with ⟨k, e', hk, hj, he'⟩
        exact ⟨k + 1, e', by simpa using hk, by omega, he'⟩
    · rintro ⟨k, e', hk, rfl, he'⟩
      cases k with
      | zero =>
        rw [List.get?_cons_zero, Option.some_inj] at hk
        subst hk
        rw [if_pos he']
        exact List.mem_cons_self _ _
      | succ k =>
        rw [List.get?_cons_succ] at hk
        have hmem : i + (k + 1) ∈ hitList req (i + 1) rest :=
          (ih (i + 1)).2 ⟨k, e', hk, by omega, he'⟩
        cases hc : e.m_required_tags.any (fun t => req.contains t) with
        | true => rw [if_pos rfl]; exact List.mem_cons_of_mem _ hmem
        | false => rw [if_neg Bool.false_ne_true]; exact hmem

/-- The outer entry loop extends the accumulated results by exactly the
`hitList` of the remaining entries, provided the accumulator only holds
positions of already-visited entries. -/
theorem entryLoop_eq (req : List String) (es : List MenuEntry) :
    ∀ (i : Nat) (results : List Nat), (∀ j ∈ results, j < i) →
      entryLoop req i es results = results ++ hitList req i es := by
  induction es with
  | nil => intro i results _; simp [entryLoop, hitList]
  | cons e rest ih =>
    intro i results hlt
    have hni : i ∉ results := fun h => Nat.lt_irrefl i (hlt i h)
    rw [entryLoop, hitList, tagLoop_of_not_mem req i e.m_required_tags results hni]
    cases hc : e.m_required_tags.any (fun t => req.contains t) with
    | true =>
      rw [if_pos rfl, if_pos rfl, ih (i + 1) (results ++ [i]) ?_]
      · simp
      · intro j hj
        rcases List.mem_append.1 hj with h | h
        · exact Nat.lt_succ_of_lt (hlt j h)
        · rw [List.mem_singleton] at h
          omega
    | false =>
      rw [if_neg Bool.false_ne_true, if_neg Bool.false_ne_true]
      exact ih (i + 1) results (fun j hj => Nat.lt_succ_of_lt (hlt j hj))

/-- The tag matcher result is exactly the ordered list of positions of the
matching entries. -/
theorem find_target_eq_hitList (entries : List MenuEntry) (req : List String) :
    find_target_menu_entries_tags entries req = hitList req 0 entries := by
  have := entryLoop_eq req entries 0 [] (by intro j hj; simp at hj)
  simpa [find_target_menu_entries_tags] using this

/-- Membership in the tag matcher result. -/
theorem find_target_mem (entries : List MenuEntry) (req : List String) (j : Nat) :
    j ∈ find_target_menu_entries_tags entries req ↔
      ∃ e, entries.get? j = some e ∧
        e.m_required_tags.any (fun t => req.contains t) = true := by
  rw [find_target_eq_hitList, hitList_mem]
  constructor
  · rintro ⟨k, e, hk, rfl, he⟩
    exact ⟨e, by simpa using hk, he⟩
  · rintro ⟨e, hj, he⟩
    exact ⟨j, e, hj, by omega, he⟩

/-- The tag matcher result is strictly increasing (relative order of the
entry list, each entry at most once). -/
theorem find_target_pairwise (entries : List MenuEntry) (req : List String) :
    (find_target_menu_entries_tags entries req).Pairwise (fun a b => a < b) := by
  rw [find_target_eq_hitList]
  exact hitList_pairwise req entries 0

/-- The tag matcher result holds no duplicates. -/
theorem find_target_nodup (entries : List MenuEntry) (req : List String) :
    (find_target_menu_entries_tags entries req).Nodup :=
  (find_target_pairwise entries req).imp (fun h => Nat.ne_of_lt h)

/-! ## Lemmas about the substring search -/

/-- `leadMatch` succeeds exactly on the lists that start with the needle. -/
theorem leadMatch_iff (needle hay : List Char) :
    leadMatch needle hay = true ↔ ∃ t, hay = needle ++ t := by
  induction needle generalizing hay with
  | nil => simp [leadMatch]
  | cons c cs ih =>
    cases hay with
    | nil =>
      simp only [leadMatch, List.cons_append]
      constructor
      · intro h; cases h
      · rintro ⟨t, ht⟩; cases ht
    | cons d ds =>
      rw [leadMatch, Bool.and_eq_true, decide_eq_true_iff, ih]
      constructor
      · rintro ⟨rfl, t, rfl⟩
        exact ⟨t, rfl⟩
      · rintro ⟨t, ht⟩
        rw [List.cons_append, List.cons.injEq] at ht
        exact ⟨ht.1.symm, t, ht.2⟩

/-- `occursIn` succeeds exactly when the needle occurs contiguously in the
hay. -/
theorem occursIn_iff (needle hay : List Char) :
    occursIn needle hay = true ↔ ∃ s t, hay = s ++ needle ++ t := by
  induction hay with
  | nil =>
    simp only [occursIn, List.isEmpty_iff]
    constructor
    · rintro rfl; exact ⟨[], [], rfl⟩
    · rintro ⟨s, t, ht⟩
      rcases List.append_eq_nil.1 ht.symm with ⟨h1, h2⟩
      exact (List.append_eq_nil.1 h1).2
  | cons c cs ih =>
    rw [occursIn, Bool.or_eq_true, leadMatch_iff, ih]
    constructor
    · rintro (⟨t, ht⟩ | ⟨s, t, ht⟩)
      · exact ⟨[], t, by simpa using ht⟩
      · exact ⟨c :: s, t, by simp [ht]⟩
    · rintro ⟨s, t, ht⟩
      cases s with
      | nil =>
        left
        exact ⟨t, by simpa using ht⟩
      | cons a as =>
        right
        rw [List.cons_append, List.cons_append, List.cons.injEq] at ht
        exact ⟨as, t, ht.2⟩

/-- The master-tag membership test accepts exactly the raw tag strings that
contain the editor item tag as a contiguous substring. -/
theorem masterTagCheck_iff (editor_tags editor_item_tag : String) :
    masterTagCheck editor_tags editor_item_tag = true ↔
      ∃ s t, editor_tags.data = s ++ editor_item_tag.data ++ t :=
  occursIn_iff editor_item_tag.data editor_tags.data

/-! ## Lemmas about panel layout -/

/-- The running offset after folding any sequence of placements. -/
theorem foldl_Add_Image_Item_element_y (calls : List (String × AssetSettings)) :
    ∀ p : MenuEntryPanel,
      (calls.foldl (fun q c => Add_Image_Item c.1 c.2 q) p).m_element_y =
        p.m_element_y + calls.length * (labelheight + imageheight + yskip) := by
  induction calls with
  | nil => intro p; simp
  | cons c rest ih =>
    intro p
    rw [List.foldl_cons, ih]
    show p.m_element_y + labelheight + imageheight + yskip +
        rest.length * (labelheight + imageheight + yskip) =
      p.m_element_y + (rest.length + 1) * (labelheight + imageheight + yskip)
    ring

/-! ## Lemmas about menu-file parsing -/

/-- A bad item node makes the per-item processing take the unchecked-access
branch. -/
theorem parse_one_item_of_bad (item : XmlItem) (h : badItem item = true) :
    parse_one_item item = none := by
  rw [badItem, Bool.or_eq_true, Option.isNone_iff_eq_none, Option.isNone_iff_eq_none] at h
  rw [parse_one_item]
  rcases h with h | h
  · rw [h]
  · rw [h]
    cases readName item <;> rfl

/-- An item with a missing (or value-less) required property makes the item
loop report the unchecked access, whatever was accumulated before. -/
theorem parse_items_of_bad (items : List XmlItem) :
    ∀ acc : List MenuEntry, (∃ item ∈ items, badItem item = true) →
      parse_items items acc = .undefinedAccess := by
  induction items with
  | nil => intro acc h; simp at h
  | cons item rest ih =>
    intro acc h
    rw [parse_items]
    cases hone : parse_one_item item with
    | none => rfl
    | some e =>
      rcases h with ⟨it, hmem, hbad⟩
      rcases List.mem_cons.1 hmem with rfl | hmem
      · rw [parse_one_item_of_bad it hbad] at hone
        cases hone
      · exact ih _ ⟨it, hmem, hbad⟩

/-! ## Lemmas about category lookup -/

/-- When no entry carries the requested name, the linear search throws. -/
theorem get_menu_entry_not_found (entries : List MenuEntry) (name : String)
    (h : ∀ e ∈ entries, e.m_name ≠ name) :
    get_menu_entry entries name = .error (.notFound name) := by
  induction entries with
  | nil => rfl
  | cons e rest ih =>
    rw [get_menu_entry, if_neg (h e (List.mem_cons_self e rest))]
    exact ih (fun e' he' => h e' (List.mem_cons_of_mem e he'))

/-- When some entry carries the requested name, the linear search returns an
entry of the list with that very name. -/
theorem get_menu_entry_found (entries : List MenuEntry) (name : String)
    (h : ∃ e ∈ entries, e.m_name = name) :
    ∃ e, get_menu_entry entries name = .ok e ∧ e.m_name = name ∧ e ∈ entries := by
  induction entries with
  | nil => simp at h
  | cons e rest ih =>
    by_cases he : e.m_name = name
    · exact ⟨e, by rw [get_menu_entry, if_pos he], he, List.mem_cons_self e rest⟩
    · rcases h with ⟨e', hmem, hname⟩
      rcases List.mem_cons.1 hmem with rfl | hmem
      · exact absurd hname he
      · rcases ih ⟨e', hmem, hname⟩ with ⟨f, hg, hn, hm⟩
        refine ⟨f, ?_, hn, List.mem_cons_of_mem e hm⟩
        rw [get_menu_entry, if_neg he]
        exact hg

/-! ## Lemmas about the visibility state machine -/

/-- A rested panel is left entirely unchanged by an update tick. -/
theorem Update_of_rested (fps sf : ℚ) (s : EditorState) (h : s.rested = true) :
    Update fps sf s = s := by
  rw [Update]
  by_cases he : s.enabled = false
  · rw [if_pos he]
  · rw [if_neg he]
    by_cases hm : s.mouse_inside = true
    · rw [if_pos hm]
    · rw [if_neg hm, if_pos h]

/-- A rested panel stays unchanged across any sequence of update ticks. -/
theorem foldl_Update_of_rested (fps : ℚ) (sfs : List ℚ) (s : EditorState)
    (h : s.rested = true) :
    sfs.foldl (fun st sf => Update fps sf st) s = s := by
  induction sfs with
  | nil => rfl
  | cons sf rest ih => rw [List.foldl_cons, Update_of_rested fps sf s h]; exact ih

/-- The resting transition: with the timer at or past the timeout, the tick
parks the pane offscreen, restores full alpha, sets the rested flag and
clears the timer. -/
theorem Update_rest_step (fps sf : ℚ) (s : EditorState)
    (he : s.enabled = true) (hm : s.mouse_inside = false) (hr : s.rested = false)
    (hge : s.visibility_timer ≥ fps * 2) :
    Update fps sf s =
      { s with x_scale := -19/100, alpha := 1, rested := true, visibility_timer := 0 } := by
  rw [Update, if_neg (by simp [he]), if_neg (by simp [hm]), if_neg (by simp [hr]),
    if_pos hge]

/-- The fading transition: below the timeout, the tick accumulates the speed
factor into the timer and interpolates the alpha down, leaving the flags
unchanged. -/
theorem Update_fade_step (fps sf : ℚ) (s : EditorState)
    (he : s.enabled = true) (hm : s.mouse_inside = false) (hr : s.rested = false)
    (hlt : s.visibility_timer < fps * 2) :
    Update fps sf s =
      { s with visibility_timer := s.visibility_timer + sf
               alpha := 1 - 1 * (s.visibility_timer + sf) / (fps * 2) } := by
  rw [Update, if_neg (by simp [he]), if_neg (by simp [hm]), if_neg (by simp [hr]),
    if_neg (not_le.mpr hlt)]

/-- Alpha is non-increasing over any all-nonnegative fade sequence that does
not reach the rest transition, starting from a state whose alpha agrees with
the interpolation invariant. -/
theorem fade_fold_alpha (fps : ℚ) (hfps : 0 < fps) (sfs : List ℚ) :
    ∀ s : EditorState, s.enabled = true → s.mouse_inside = false → s.rested = false →
      s.alpha = 1 - 1 * s.visibility_timer / (fps * 2) →
      (∀ x ∈ sfs, 0 ≤ x) →
      (sfs.foldl (fun st sf => Update fps sf st) s).rested = false →
      (sfs.foldl (fun st sf => Update fps sf st) s).alpha ≤ s.alpha := by
  induction sfs with
  | nil => intro s _ _ _ _ _ _; exact le_of_eq rfl
  | cons sf rest ih =>
    intro s he hm hr hinv hpos hfin
    rw [List.foldl_cons] at hfin ⊢
    have hT : (0:ℚ) < fps * 2 := by positivity
    have hr1 : (Update fps sf s).rested = false := by
      cases hu : (Update fps sf s).rested with
      | false => rfl
      | true =>
        rw [foldl_Update_of_rested fps rest _ hu, hu] at hfin
        cases hfin
    have hlt : s.visibility_timer < fps * 2 := by
      by_contra hge
      rw [Update_rest_step fps sf s he hm hr (not_lt.1 hge)] at hr1
      cases hr1
    rw [Update_fade_step fps sf s he hm hr hlt] at hr1 hfin ⊢
    have hsf : 0 ≤ sf := hpos sf (List.mem_cons_self sf rest)
    have hstep : 1 - 1 * (s.visibility_timer + sf) / (fps * 2) ≤ s.alpha := by
      rw [hinv]
      have := (div_le_div_iff_of_pos_right hT).mpr
        (by linarith : 1 * s.visibility_timer ≤ 1 * (s.visibility_timer + sf))
      linarith
    have htail := ih
      { s with visibility_timer := s.visibility_timer + sf
               alpha := 1 - 1 * (s.visibility_timer + sf) / (fps * 2) }
      he hm hr rfl (fun x hx => hpos x (List.mem_cons_of_mem sf hx)) hfin
    exact le_trans htail hstep

/-- A rested panel's alpha and rested flag survive any non-enter event. -/
theorem applyEvent_of_rested (fps : ℚ) (s : EditorState) (h : s.rested = true)
    (ev : EditorEvent) :
    (applyEvent fps s ev).alpha = s.alpha ∧ (applyEvent fps s ev).rested = true := by
  cases ev with
  | update sf => rw [applyEvent, Update_of_rested fps sf s h]; exact ⟨rfl, h⟩
  | mouseLeave => exact ⟨rfl, h⟩

/-- A rested panel's alpha and rested flag survive any sequence of update
ticks and pointer-leave events. -/
theorem foldl_applyEvent_of_rested (fps : ℚ) (evs : List EditorEvent) :
    ∀ s : EditorState, s.rested = true →
      (evs.foldl (applyEvent fps) s).alpha = s.alpha ∧
      (evs.foldl (applyEvent fps) s).rested = true := by
  induction evs with
  | nil => intro s h; exact ⟨rfl, h⟩
  | cons ev rest ih =>
    intro s h
    rw [List.foldl_cons]
    obtain ⟨ha, hr⟩ := applyEvent_of_rested fps s h ev
    obtain ⟨ha2, hr2⟩ := ih _ hr
    exact ⟨ha2.trans ha, hr2⟩

/-! ## Lemmas about the directory scan -/

/-- Scanning an asset whose settings file is malformed only logs the error:
the catalog panels are untouched. -/
theorem scanStep_parseError (entries : List MenuEntry) (master : String)
    (env : String → Option SettingsResult) (st : ScanState) (path : String)
    (h : env path = some SettingsResult.parseError) :
    scanStep entries master env st path = { st with log := st.log ++ [path] } := by
  rw [scanStep, processAsset, h]

/-- The panels produced by one scan step only depend on the incoming
panels. -/
theorem scanStep_panels_congr (entries : List MenuEntry) (master : String)
    (env : String → Option SettingsResult) (path : String) (st st' : ScanState)
    (h : st.panels = st'.panels) :
    (scanStep entries master env st path).panels =
      (scanStep entries master env st' path).panels := by
  rw [scanStep, scanStep]
  cases processAsset entries master env path <;> simp [h]

/-- The panels produced by a scan only depend on the incoming panels. -/
theorem load_panels_congr (entries : List MenuEntry) (master : String)
    (env : String → Option SettingsResult) (files : List String) :
    ∀ st st' : ScanState, st.panels = st'.panels →
      (load_image_items entries master env files st).panels =
        (load_image_items entries master env files st').panels := by
  induction files with
  | nil => intro st st' h; exact h
  | cons f rest ih =>
    intro st st' h
    show (rest.foldl (scanStep entries master env) (scanStep entries master env st f)).panels
      = (rest.foldl (scanStep entries master env) (scanStep entries master env st' f)).panels
    exact ih _ _ (scanStep_panels_congr entries master env f st st' h)

/-- Log entries are never removed by the scan. -/
theorem load_log_mono (entries : List MenuEntry) (master : String)
    (env : String → Option SettingsResult) (files : List String) :
    ∀ (st : ScanState) (x : String), x ∈ st.log →
      x ∈ (load_image_items entries master env files st).log := by
  induction files with
  | nil => intro st x h; exact h
  | cons f rest ih =>
    intro st x h
    show x ∈ (rest.foldl (scanStep entries master env) (scanStep entries master env st f)).log
    apply ih
    rw [scanStep]
    cases processAsset entries master env f <;> simp [h]

/-! ## The claims -/

/-- C1 (counterexample): the claim "A is placed into C iff the required tags
of C intersect the tags of A, A carries the master tag, and C is not a
header — in particular a header descriptor never receives a placed item" is
false on the code: `find_target_menu_entries_for` never consults the header
flag, so the header entry `headerEntry` (required tags `header;ground`)
does receive the asset `stoneSettings` (tags `level;ground`, master tag
`level`). -/
theorem spec_C1_cex :
    ¬((0 ∈ Try_Add_Editor_Item_targets [headerEntry] "level" stoneSettings) ↔
      (headerEntry.m_required_tags.any
          (fun t => (string_split stoneSettings.m_editor_tags ';').contains t) = true ∧
        masterTagCheck stoneSettings.m_editor_tags "level" = true ∧
        headerEntry.m_is_header = false)) := by
  decide

/-- C1 (amended): an asset with parsed settings is placed into a category
entry iff its raw tag string carries the master tag (as a substring) and the
entry's required tags intersect the asset's split tag list — the header flag
is not consulted, so a header entry whose required tags intersect the
asset's tags receives the item too. -/
theorem spec_C1 (entries : List MenuEntry) (master : String)
    (settings : AssetSettings) (j : Nat) :
    j ∈ Try_Add_Editor_Item_targets entries master settings ↔
      (masterTagCheck settings.m_editor_tags master = true ∧
        ∃ e, entries.get? j = some e ∧
          e.m_required_tags.any
            (fun t => (string_split settings.m_editor_tags ';').contains t) = true) := by
  rw [Try_Add_Editor_Item_targets]
  cases hmc : masterTagCheck settings.m_editor_tags master with
  | true =>
    rw [if_pos rfl, find_target_menu_entries_for, find_target_mem]
    simp
  | false =>
    rw [if_neg Bool.false_ne_true]
    simp

/-- C1 (witness): the non-header entry `groundEntry` receives
`stoneSettings` — instantiating the amended claim at position 1 of the
two-entry menu. -/
theorem spec_C1_witness :
    1 ∈ Try_Add_Editor_Item_targets [enemiesEntry, groundEntry] "level" stoneSettings :=
  (spec_C1 [enemiesEntry, groundEntry] "level" stoneSettings 1).mpr
    ⟨by decide, groundEntry, by decide, by decide⟩

/-- C2: the tag matcher lists each category whose required tags intersect
the requested tags exactly once (count 1), omits the others (count 0), and
its output is strictly increasing in the entry positions, i.e. it preserves
the relative order of the descriptor list. -/
theorem spec_C2 (entries : List MenuEntry) (requested : List String) :
    (find_target_menu_entries_tags entries requested).Pairwise (fun a b => a < b) ∧
    ∀ i : Fin entries.length,
      ((entries.get i).m_required_tags.any (fun t => requested.contains t) = true →
        (find_target_menu_entries_tags entries requested).count i.val = 1) ∧
      ((entries.get i).m_required_tags.any (fun t => requested.contains t) = false →
        (find_target_menu_entries_tags entries requested).count i.val = 0) := by
  refine ⟨find_target_pairwise entries requested, fun i => ⟨fun hyes => ?_, fun hno => ?_⟩⟩
  · exact List.count_eq_one_of_mem (find_target_nodup entries requested)
      ((find_target_mem entries requested i.val).2
        ⟨entries.get i, List.get?_eq_get i.isLt, hyes⟩)
  · refine List.count_eq_zero.2 (fun hmem => ?_)
    rcases (find_target_mem entries requested i.val).1 hmem with ⟨e, hget, hany⟩
    rw [List.get?_eq_get i.isLt, Option.some_inj] at hget
    rw [hget] at hno
    rw [hno] at hany
    cases hany

/-- C2 (witness): the asset tags `level;enemy;ground` hit both sample
categories exactly once each. -/
theorem spec_C2_witness :
    (find_target_menu_entries_tags [enemiesEntry, groundEntry]
        ["level", "enemy", "ground"]).count 0 = 1 ∧
    (find_target_menu_entries_tags [enemiesEntry, groundEntry]
        ["level", "enemy", "ground"]).count 1 = 1 :=
  ⟨((spec_C2 [enemiesEntry, groundEntry] ["level", "enemy", "ground"]).2
      ⟨0, by decide⟩).1 (by decide),
   ((spec_C2 [enemiesEntry, groundEntry] ["level", "enemy", "ground"]).2
      ⟨1, by decide⟩).1 (by decide)⟩

/-- C3: the running vertical offset starts at 0, each placement advances it
by exactly `labelheight + imageheight + yskip`, and after `k` placements it
equals `k * (labelheight + imageheight + yskip)`. -/
theorem spec_C3 :
    newMenuEntryPanel.m_element_y = 0 ∧
    (∀ (path : String) (settings : AssetSettings) (p : MenuEntryPanel),
      (Add_Image_Item path settings p).m_element_y =
        p.m_element_y + (labelheight + imageheight + yskip)) ∧
    ∀ calls : List (String × AssetSettings),
      (calls.foldl (fun q c => Add_Image_Item c.1 c.2 q) newMenuEntryPanel).m_element_y =
        calls.length * (labelheight + imageheight + yskip) := by
  refine ⟨rfl, fun path settings p => ?_, fun calls => ?_⟩
  · show p.m_element_y + labelheight + imageheight + yskip =
      p.m_element_y + (labelheight + imageheight + yskip)
    ring
  · rw [foldl_Add_Image_Item_element_y]
    show (0:Int) + calls.length * (labelheight + imageheight + yskip) =
      calls.length * (labelheight + imageheight + yskip)
    ring

/-- C4: on the update tick at which the timer sits exactly at the timeout
`speedfactor_fps * 2` (panel enabled, pointer outside, not rested), that
same tick sets the rested flag, forces the alpha back to `1.0`, snaps the X
position to the offscreen bias `-0.19` and clears the timer. -/
theorem spec_C4 (fps sf : ℚ) (s : EditorState)
    (he : s.enabled = true) (hm : s.mouse_inside = false) (hr : s.rested = false)
    (ht : s.visibility_timer = fps * 2) :
    (Update fps sf s).rested = true ∧ (Update fps sf s).alpha = 1 ∧
    (Update fps sf s).x_scale = -19/100 ∧ (Update fps sf s).visibility_timer = 0 := by
  rw [Update_rest_step fps sf s he hm hr (ge_of_eq ht)]
  exact ⟨rfl, rfl, rfl, rfl⟩

/-- C4 (witness): the transition fires at `speedfactor_fps = 32`, timer 64. -/
theorem spec_C4_witness :
    (Update 32 1 restDemoState).rested = true ∧
    (Update 32 1 restDemoState).alpha = 1 ∧
    (Update 32 1 restDemoState).x_scale = -19/100 ∧
    (Update 32 1 restDemoState).visibility_timer = 0 :=
  spec_C4 32 1 restDemoState rfl rfl rfl (by norm_num [restDemoState])

/-- C5: across any sequence of nonnegative per-frame speed factors during
which the panel stays enabled, unhovered and unrested, the alpha never
increases; and a pointer-enter event immediately restores alpha `1.0` and
the home X position. -/
theorem spec_C5 (fps : ℚ) (hfps : 0 < fps) (s : EditorState) (sfs : List ℚ)
    (he : s.enabled = true) (hm : s.mouse_inside = false) (hr : s.rested = false)
    (hinv : s.alpha = 1 - 1 * s.visibility_timer / (fps * 2))
    (hpos : ∀ x ∈ sfs, 0 ≤ x)
    (hfin : (sfs.foldl (fun st sf => Update fps sf st) s).rested = false) :
    (sfs.foldl (fun st sf => Update fps sf st) s).alpha ≤ s.alpha ∧
    (on_mouse_enter s).alpha = 1 ∧ (on_mouse_enter s).x_scale = s.target_x :=
  ⟨fade_fold_alpha fps hfps sfs s he hm hr hinv hpos hfin, rfl, rfl⟩

/-- C5 (witness): two fade ticks at `speedfactor_fps = 32` from a fresh
fade state. -/
theorem spec_C5_witness :
    ([(1:ℚ), 2].foldl (fun st sf => Update 32 sf st) fadeDemoState).alpha ≤
      fadeDemoState.alpha ∧
    (on_mouse_enter fadeDemoState).alpha = 1 ∧
    (on_mouse_enter fadeDemoState).x_scale = fadeDemoState.target_x :=
  spec_C5 32 (by norm_num) fadeDemoState [1, 2] rfl rfl rfl
    (by norm_num [fadeDemoState])
    (by intro x hx; rcases List.mem_cons.1 hx with rfl | hx; · norm_num;
        · rcases List.mem_singleton.1 hx with rfl; norm_num)
    (by norm_num [List.foldl, Update, fadeDemoState])

/-- C6: once the panel is rested, no sequence of update ticks and
pointer-leave events ever changes its alpha or clears the rested flag;
only a pointer-enter event clears it. -/
theorem spec_C6 (fps : ℚ) (s : EditorState) (evs : List EditorEvent)
    (h : s.rested = true) :
    (evs.foldl (applyEvent fps) s).alpha = s.alpha ∧
    (evs.foldl (applyEvent fps) s).rested = true ∧
    (on_mouse_enter s).rested = false :=
  ⟨(foldl_applyEvent_of_rested fps evs s h).1,
   (foldl_applyEvent_of_rested fps evs s h).2, rfl⟩

/-- C6 (witness): a rested panel survives an update tick, a pointer-leave
and another update tick with its alpha intact. -/
theorem spec_C6_witness :
    ([EditorEvent.update 1, EditorEvent.mouseLeave, EditorEvent.update 2].foldl
        (applyEvent 32) restedDemoState).alpha = restedDemoState.alpha ∧
    ([EditorEvent.update 1, EditorEvent.mouseLeave, EditorEvent.update 2].foldl
        (applyEvent 32) restedDemoState).rested = true ∧
    (on_mouse_enter restedDemoState).rested = false :=
  spec_C6 32 restedDemoState
    [EditorEvent.update 1, EditorEvent.mouseLeave, EditorEvent.update 2] rfl

/-- C7: a malformed settings file for one asset does not disturb the scan of
the others: the scan of a directory with the bad file builds exactly the
panels of the scan without it, and the bad asset's error is reported in the
log. -/
theorem spec_C7 (entries : List MenuEntry) (master : String)
    (env : String → Option SettingsResult) (pre post : List String)
    (st : ScanState) (bad : String)
    (h : env bad = some SettingsResult.parseError) :
    (load_image_items entries master env (pre ++ bad :: post) st).panels =
      (load_image_items entries master env (pre ++ post) st).panels ∧
    bad ∈ (load_image_items entries master env (pre ++ bad :: post) st).log := by
  have hsplit : load_image_items entries master env (pre ++ bad :: post) st =
      load_image_items entries master env post
        (scanStep entries master env (load_image_items entries master env pre st) bad) := by
    rw [load_image_items, List.foldl_append, List.foldl_cons]
    rfl
  have hsplit2 : load_image_items entries master env (pre ++ post) st =
      load_image_items entries master env post
        (load_image_items entries master env pre st) := by
    rw [load_image_items, List.foldl_append]
    rfl
  rw [hsplit, hsplit2]
  constructor
  · apply load_panels_congr
    rw [scanStep_parseError entries master env _ bad h]
  · apply load_log_mono
    rw [scanStep_parseError entries master env _ bad h]
    simp

/-- C7 (witness): scanning `stone.png`, the malformed `bad.png` and an
uncatalogued `other.png` yields the same panels as the scan without
`bad.png`, and logs `bad.png`. -/
theorem spec_C7_witness :
    (load_image_items [enemiesEntry, groundEntry] "level" demoEnv
        (["ground/stone.png"] ++ "ground/bad.png" :: ["other.png"]) initScanState).panels =
      (load_image_items [enemiesEntry, groundEntry] "level" demoEnv
        (["ground/stone.png"] ++ ["other.png"]) initScanState).panels ∧
    "ground/bad.png" ∈ (load_image_items [enemiesEntry, groundEntry] "level" demoEnv
        (["ground/stone.png"] ++ "ground/bad.png" :: ["other.png"]) initScanState).log :=
  spec_C7 [enemiesEntry, groundEntry] "level" demoEnv ["ground/stone.png"]
    ["other.png"] initScanState "ground/bad.png" (by decide)

/-- C8 (counterexample): an `<item>` node carrying only a `tags` property
(no `name`) does not make the parse fail with the load error of the XML
layer — it runs into the unchecked `NodeSet::operator[]` access instead. -/
theorem spec_C8_cex :
    parse_menu_file (some [badNameItem]) = MenuParseResult.undefinedAccess ∧
    MenuParseResult.undefinedAccess ≠ MenuParseResult.loadError := by
  decide

/-- C8 (amended): an absent or not-well-formed menu file fails with the XML
layer's load error, and an item node missing its required `name` or `tags`
property (or their `value` attribute) makes the parse perform an unchecked
out-of-bounds/null access — undefined behaviour rather than a reported
`LoadError` — and no descriptor list is produced in either case. -/
theorem spec_C8 (items : List XmlItem)
    (h : ∃ item ∈ items, badItem item = true) :
    parse_menu_file none = MenuParseResult.loadError ∧
    parse_menu_file (some items) = MenuParseResult.undefinedAccess :=
  ⟨rfl, parse_items_of_bad items [] h⟩

/-- C8 (witness): the amended claim at the one-item document whose item
lacks a `name` property. -/
theorem spec_C8_witness :
    parse_menu_file none = MenuParseResult.loadError ∧
    parse_menu_file (some [badNameItem]) = MenuParseResult.undefinedAccess :=
  spec_C8 [badNameItem] ⟨badNameItem, by decide, by decide⟩

/-- C9: looking up a category name that no entry carries throws the lookup
error naming it (never a silent null/default), and looking up a present
name returns an entry of the list carrying exactly that name. -/
theorem spec_C9 (entries : List MenuEntry) (name : String) :
    ((∀ e ∈ entries, e.m_name ≠ name) →
      get_menu_entry entries name = .error (.notFound name)) ∧
    ((∃ e ∈ entries, e.m_name = name) →
      ∃ e, get_menu_entry entries name = .ok e ∧ e.m_name = name ∧ e ∈ entries) :=
  ⟨get_menu_entry_not_found entries name, get_menu_entry_found entries name⟩

/-- C9 (witness): looking up `Ground` among `[enemiesEntry]` throws, and
looking it up among `[enemiesEntry, groundEntry]` returns a matching
entry. -/
theorem spec_C9_witness :
    get_menu_entry [enemiesEntry] "Ground" = .error (.notFound "Ground") ∧
    ∃ e, get_menu_entry [enemiesEntry, groundEntry] "Ground" = .ok e ∧
      e.m_name = "Ground" ∧ e ∈ [enemiesEntry, groundEntry] :=
  ⟨(spec_C9 [enemiesEntry] "Ground").1 (by decide),
   (spec_C9 [enemiesEntry, groundEntry] "Ground").2 ⟨groundEntry, by decide, by decide⟩⟩

/-- C10: the master-tag membership test is a substring search on the raw
tag string — it accepts exactly when the item tag occurs contiguously in
the string — and in particular the single tag `sublevel` passes the check
for master tag `level` although `level` is not an element of its split tag
list. -/
theorem spec_C10 :
    (∀ editor_tags editor_item_tag : String,
      masterTagCheck editor_tags editor_item_tag = true ↔
        ∃ s t, editor_tags.data = s ++ editor_item_tag.data ++ t) ∧
    masterTagCheck "sublevel" "level" = true ∧
    (string_split "sublevel" ';').contains "level" = false :=
  ⟨masterTagCheck_iff, by decide, by decide⟩

/-- C10 (witness): the substring acceptance at the concrete instance. -/
theorem spec_C10_witness : masterTagCheck "sublevel" "level" = true :=
  spec_C10.2.1
